import Mathlib

/-!
# EmptyHeaded storage engine: the constructors of `Vector`

A shallow embedding of `src/storage_engine/include/Vector.hpp`.

`Vector<T,A,M>` is a template over a layout strategy `T`, an annotation type
`A` and a memory buffer `M`.  None of the three is defined in this header:

* `M` (the arena) is modelled from the specification, section 4.1, as a bump
  arena with one partition per thread;
* `T` (the layout) is a parameter: the three static operations the
  constructors call are the fields of `Layout`;
* `A` only appears as the bytes an `A*` points to.

Pointers are modelled as locations.  An `M*` is a key of the `Heap`, a
`uint8_t*` into an arena is a `BytePtr`, and a read-only argument array
(`data`, `anno`) is the sequence of bytes it holds on entry.  Sizes are natural
numbers: the partitions are unbounded, a reservation always succeeds, and a
`size_t` sum such as `index_len + anno_len` does not wrap, since a region of
that many bytes has to exist in the address space for the writes to be defined.
-/

namespace EmptyHeaded

/-- One byte of memory. -/
abbrev Byte := Fin 256

/-- The pair `(tid, index)` of `BufferIndex`: the address of a vector. -/
structure BufferIndex where
  tid : Nat
  index : Nat
deriving DecidableEq, Repr

/-- Modelled from the spec: the arena `M` (spec 4.1), whose class is not part
of this header.  It is a per-thread bump allocator: `cur t` is the write cursor
of thread `t`, and `buffer t q` the byte at position `q` of the partition of
thread `t`. -/
structure MemoryBuffer where
  cur : Nat → Nat
  buffer : Nat → Nat → Byte

/-- The store: every `M*` points to the state of one arena. -/
abbrev Heap := Nat → MemoryBuffer

/-- A `uint8_t*` into an arena: arena, partition, position. -/
structure BytePtr where
  mem : Nat
  tid : Nat
  pos : Nat
deriving DecidableEq, Repr

/-- The pointer `p + i`. -/
def BytePtr.add (p : BytePtr) (i : Nat) : BytePtr := ⟨p.mem, p.tid, p.pos + i⟩

/-- The byte `p[i]`. -/
def load (h : Heap) (p : BytePtr) (i : Nat) : Byte := (h p.mem).buffer p.tid (p.pos + i)

/-- Modelled from the spec: `current_offset(thread_id)` of the arena, the
position a subsequent reservation on that thread would start at. -/
def get_offset (h : Heap) (mb tid : Nat) : Nat := (h mb).cur tid

/-- Modelled from the spec: `reserve(thread_id, num_bytes)` of the arena.  It
returns the region that starts at the write cursor of the thread and advances
the cursor by `num`; the bytes of the region are left as they are. -/
def get_next (h : Heap) (mb tid num : Nat) : Heap × BytePtr :=
  (fun m => if m = mb then
      { cur := fun t => if t = tid then (h m).cur t + num else (h m).cur t
        buffer := (h m).buffer }
    else h m,
   ⟨mb, tid, (h mb).cur tid⟩)

/-- Modelled from the spec: `resolve(address)` of the arena. -/
def get_address (mb : Nat) (b : BufferIndex) : BytePtr := ⟨mb, b.tid, b.index⟩

/-- Write `f 0 .. f (n-1)` to `dst[0] .. dst[n-1]`. -/
def writeRange (h : Heap) (dst : BytePtr) (n : Nat) (f : Nat → Byte) : Heap :=
  fun m => if m = dst.mem then
      { cur := (h m).cur
        buffer := fun t q =>
          if t = dst.tid ∧ dst.pos ≤ q ∧ q < dst.pos + n then f (q - dst.pos)
          else (h m).buffer t q }
    else h m

/-- The call `memset(dst, c, n)`. -/
def memset (h : Heap) (dst : BytePtr) (c : Byte) (n : Nat) : Heap :=
  writeRange h dst n (fun _ => c)

/-- The call `memcpy(dst, src, n)` where `src` is an argument array of the
caller, given by its bytes. -/
def memcpy_from (h : Heap) (dst : BytePtr) (src : Nat → Byte) (n : Nat) : Heap :=
  writeRange h dst n src

/-- Do the `n` bytes at `a` and the `n` bytes at `b` share a byte? -/
def overlaps (a b : BytePtr) (n : Nat) : Bool :=
  a.mem == b.mem && a.tid == b.tid && decide (a.pos < b.pos + n) && decide (b.pos < a.pos + n)

/-- The call `memcpy(dst, src, n)` between two arena regions.  C leaves the
call undefined when the regions overlap: the result is then `none`. -/
def memcpy (h : Heap) (dst src : BytePtr) (n : Nat) : Option Heap :=
  if overlaps dst src n then none else some (writeRange h dst n (load h src))

/-- The static operations of the layout strategy `T` that the constructors
call.  `get_meta` parses the header of the vector at an address of an arena,
`get_num_bytes` is the encoded size it records, and `get_annotation` is the
annotation cell, a location of the same arena. -/
structure Layout (Meta : Type) where
  get_meta : MemoryBuffer → BufferIndex → Meta
  get_num_bytes : Meta → Nat
  get_annotation : Nat → MemoryBuffer → BufferIndex → BufferIndex

/-- The fields of `Vector`: its address and the arena it points into. -/
structure Vector where
  bufferIndex : BufferIndex
  memoryBuffer : Nat
deriving DecidableEq, Repr

namespace Vector

/-- The method `get_meta()`: `T::get_meta(memoryBuffer, bufferIndex)`. -/
def get_meta {Meta : Type} (L : Layout Meta) (h : Heap) (v : Vector) : Meta :=
  L.get_meta (h v.memoryBuffer) v.bufferIndex

/-- The constructor `Vector(memory_buffer_in, buffer_index_in)` (lines 32-38). -/
def ofBufferIndex (h : Heap) (memory_buffer_in : Nat) (buffer_index_in : BufferIndex) :
    Heap × Vector :=
  (h, ⟨buffer_index_in, memory_buffer_in⟩)

/-- The constructor `Vector(memory_buffer_in)` (lines 40-48).  `NUM_THREADS` is
a constant of `utils/utils.hpp`, taken as a parameter. -/
def unbound (NUM_THREADS : Nat) (h : Heap) (memory_buffer_in : Nat) : Heap × Vector :=
  let buffer_index_in : BufferIndex := ⟨NUM_THREADS, 0⟩
  (h, ⟨buffer_index_in, memory_buffer_in⟩)

/-- The constructor `Vector(tid, memory_buffer_in, v_in)` (lines 50-62). -/
def copy {Meta : Type} (L : Layout Meta) (h : Heap) (tid memory_buffer_in : Nat)
    (v_in : Vector) : Option (Heap × Vector) :=
  let cpy_size := L.get_num_bytes (v_in.get_meta L h)
  let index := get_offset h memory_buffer_in tid
  let r := get_next h memory_buffer_in tid cpy_size
  match memcpy r.1 r.2 (get_address v_in.memoryBuffer v_in.bufferIndex) cpy_size with
  | none => none
  | some h2 => some (h2, ⟨⟨tid, index⟩, memory_buffer_in⟩)

/-- The constructor `Vector(tid, memory_buffer_in, num_bytes)` (lines 65-76). -/
def zeroed (h : Heap) (tid memory_buffer_in num_bytes : Nat) : Heap × Vector :=
  let index := get_offset h memory_buffer_in tid
  let r := get_next h memory_buffer_in tid num_bytes
  let h2 := memset r.1 r.2 0 num_bytes
  (h2, ⟨⟨tid, index⟩, memory_buffer_in⟩)

/-- The constructor `Vector(tid, memory_buffer_in, data, index_len, anno_len)`
(lines 78-93). -/
def ofBytes (h : Heap) (tid memory_buffer_in : Nat) (data : Nat → Byte)
    (index_len anno_len : Nat) : Heap × Vector :=
  let index := get_offset h memory_buffer_in tid
  let r := get_next h memory_buffer_in tid (index_len + anno_len)
  let h2 := memcpy_from r.1 r.2 data index_len
  let h3 := memset h2 (r.2.add index_len) 0 anno_len
  (h3, ⟨⟨tid, index⟩, memory_buffer_in⟩)

/-- The constructor `Vector(tid, memory_buffer_in, data, index_len, anno,
anno_len, anno_offset)` (lines 95-113).  The member `bufferIndex` is read on
line 108 and assigned on lines 111-112; `bufferIndex0` is the value the member
holds when the body starts. -/
def ofBytesAnno {Meta : Type} (L : Layout Meta) (h : Heap) (bufferIndex0 : BufferIndex)
    (tid memory_buffer_in : Nat) (data : Nat → Byte) (index_len : Nat)
    (anno : Nat → Byte) (anno_len anno_offset : Nat) : Heap × Vector :=
  let memoryBuffer := memory_buffer_in
  let index := get_offset h memory_buffer_in tid
  let r := get_next h memory_buffer_in tid (index_len + anno_len)
  let h2 := memcpy_from r.1 r.2 data index_len
  let anno_buf := L.get_annotation anno_offset (h2 memoryBuffer) bufferIndex0
  let h3 := memcpy_from h2 (get_address memoryBuffer anno_buf) anno anno_len
  (h3, ⟨⟨tid, index⟩, memory_buffer_in⟩)

end Vector

/-- A call of one of the four arena-writing constructors, with its arguments
(the arena is given separately). -/
inductive Call where
  | copy (tid : Nat) (v_in : Vector)
  | zeroed (tid num_bytes : Nat)
  | ofBytes (tid : Nat) (data : Nat → Byte) (index_len anno_len : Nat)
  | ofBytesAnno (bufferIndex0 : BufferIndex) (tid : Nat) (data : Nat → Byte) (index_len : Nat)
      (anno : Nat → Byte) (anno_len anno_offset : Nat)

/-- The thread id a constructor call is made with. -/
def Call.tid : Call → Nat
  | .copy tid _ => tid
  | .zeroed tid _ => tid
  | .ofBytes tid _ _ _ => tid
  | .ofBytesAnno _ tid _ _ _ _ _ => tid

/-- The number of bytes a constructor call passes to `get_next`. -/
def Call.size {Meta : Type} (L : Layout Meta) (h : Heap) : Call → Nat
  | .copy _ v_in => L.get_num_bytes (v_in.get_meta L h)
  | .zeroed _ num_bytes => num_bytes
  | .ofBytes _ _ index_len anno_len => index_len + anno_len
  | .ofBytesAnno _ _ _ index_len _ anno_len _ => index_len + anno_len

/-- Run a constructor call on the arena `mb`. -/
def Call.run {Meta : Type} (L : Layout Meta) (h : Heap) (mb : Nat) : Call → Option (Heap × Vector)
  | .copy tid v_in => Vector.copy L h tid mb v_in
  | .zeroed tid num_bytes => some (Vector.zeroed h tid mb num_bytes)
  | .ofBytes tid data index_len anno_len => some (Vector.ofBytes h tid mb data index_len anno_len)
  | .ofBytesAnno b0 tid data index_len anno anno_len anno_offset =>
      some (Vector.ofBytesAnno L h b0 tid mb data index_len anno anno_len anno_offset)

/-- From heap `h` to heap `h1` nothing changed but the write cursor of thread
`tid` of arena `mb` and the bytes at positions `lo .. lo+n-1` of the partition
of that thread. -/
def unchangedOutside (h h1 : Heap) (mb tid lo n : Nat) : Prop :=
  (∀ m t, ¬ (m = mb ∧ t = tid) → (h1 m).cur t = (h m).cur t) ∧
  (∀ m t q, ¬ (m = mb ∧ t = tid ∧ lo ≤ q ∧ q < lo + n) →
    (h1 m).buffer t q = (h m).buffer t q)

/-- A layout for the concrete evaluations: the header is the first byte of the
vector and holds its encoded size, and the annotation cell lies `anno_offset`
bytes after the address of the vector. -/
def sampleLayout : Layout Nat where
  get_meta := fun m b => (m.buffer b.tid b.index).val
  get_num_bytes := fun n => n
  get_annotation := fun off _ b => ⟨b.tid, b.index + off⟩

/-- A heap for the concrete evaluations: in every arena each thread has written
8 bytes, and position `q` of every partition holds the byte `q + 3`. -/
def sampleHeap : Heap := fun _ =>
  { cur := fun _ => 8
    buffer := fun _ q => Fin.ofNat (q + 3) }

/-- The bytes of an argument array given as a list. -/
def bytesOf (l : List Byte) : Nat → Byte := fun i => l.getD i 0

/-! ## The arena and the memory primitives -/

theorem get_next_cur (h : Heap) (mb tid num m t : Nat) :
    ((get_next h mb tid num).1 m).cur t
      = if m = mb ∧ t = tid then (h m).cur t + num else (h m).cur t := by
  unfold get_next
  by_cases hm : m = mb <;> by_cases ht : t = tid <;> simp [hm, ht]

theorem get_next_buffer (h : Heap) (mb tid num m : Nat) :
    ((get_next h mb tid num).1 m).buffer = (h m).buffer := by
  unfold get_next
  by_cases hm : m = mb <;> simp [hm]

theorem get_next_ptr (h : Heap) (mb tid num : Nat) :
    (get_next h mb tid num).2 = ⟨mb, tid, (h mb).cur tid⟩ := rfl

theorem writeRange_cur (h : Heap) (dst : BytePtr) (n : Nat) (f : Nat → Byte) (m : Nat) :
    (writeRange h dst n f m).cur = (h m).cur := by
  unfold writeRange
  by_cases hm : m = dst.mem <;> simp [hm]

theorem writeRange_buffer (h : Heap) (dst : BytePtr) (n : Nat) (f : Nat → Byte) (m t q : Nat) :
    (writeRange h dst n f m).buffer t q
      = if m = dst.mem ∧ t = dst.tid ∧ dst.pos ≤ q ∧ q < dst.pos + n then f (q - dst.pos)
        else (h m).buffer t q := by
  unfold writeRange
  by_cases hm : m = dst.mem
  · simp [hm]
  · simp [hm]

theorem load_writeRange_inside (h : Heap) (dst : BytePtr) (n : Nat) (f : Nat → Byte) (i : Nat)
    (hi : i < n) : load (writeRange h dst n f) dst i = f i := by
  unfold load
  rw [writeRange_buffer]
  simp [hi]

theorem load_writeRange_outside (h : Heap) (dst p : BytePtr) (n : Nat) (f : Nat → Byte) (i : Nat)
    (hout : ¬ (p.mem = dst.mem ∧ p.tid = dst.tid ∧ dst.pos ≤ p.pos + i ∧ p.pos + i < dst.pos + n)) :
    load (writeRange h dst n f) p i = load h p i := by
  unfold load
  rw [writeRange_buffer, if_neg hout]

theorem load_get_next (h : Heap) (mb tid num : Nat) (p : BytePtr) (i : Nat) :
    load (get_next h mb tid num).1 p i = load h p i := by
  unfold load
  rw [get_next_buffer]

/-! ## The copy constructor, unfolded -/

/-- The heap the copy constructor leaves when its `memcpy` is defined. -/
theorem copy_unfold {Meta : Type} (L : Layout Meta) (h : Heap) (tid mb : Nat) (v_in : Vector) :
    Vector.copy L h tid mb v_in =
      if overlaps ⟨mb, tid, (h mb).cur tid⟩ (get_address v_in.memoryBuffer v_in.bufferIndex)
          (L.get_num_bytes (v_in.get_meta L h)) then none
      else some
        (writeRange (get_next h mb tid (L.get_num_bytes (v_in.get_meta L h))).1
          ⟨mb, tid, (h mb).cur tid⟩ (L.get_num_bytes (v_in.get_meta L h))
          (load (get_next h mb tid (L.get_num_bytes (v_in.get_meta L h))).1
            (get_address v_in.memoryBuffer v_in.bufferIndex)),
         ⟨⟨tid, (h mb).cur tid⟩, mb⟩) := by
  unfold Vector.copy memcpy
  simp only [get_next_ptr, get_offset]
  split_ifs <;> rfl

theorem copy_inv {Meta : Type} (L : Layout Meta) (h : Heap) (tid mb : Nat) (v_in : Vector)
    (h' : Heap) (v : Vector) (hrun : Vector.copy L h tid mb v_in = some (h', v)) :
    overlaps ⟨mb, tid, (h mb).cur tid⟩ (get_address v_in.memoryBuffer v_in.bufferIndex)
        (L.get_num_bytes (v_in.get_meta L h)) = false ∧
    h' = writeRange (get_next h mb tid (L.get_num_bytes (v_in.get_meta L h))).1
          ⟨mb, tid, (h mb).cur tid⟩ (L.get_num_bytes (v_in.get_meta L h))
          (load h (get_address v_in.memoryBuffer v_in.bufferIndex)) ∧
    v = ⟨⟨tid, (h mb).cur tid⟩, mb⟩ := by
  rw [copy_unfold] at hrun
  split at hrun
  · exact absurd hrun (by simp)
  · rename_i hno
    simp only [Option.some.injEq, Prod.mk.injEq] at hrun
    refine ⟨by simpa using hno, ?_, hrun.2.symm⟩
    have hsrc : load (get_next h mb tid (L.get_num_bytes (v_in.get_meta L h))).1
        (get_address v_in.memoryBuffer v_in.bufferIndex)
          = load h (get_address v_in.memoryBuffer v_in.bufferIndex) := by
      funext i
      exact load_get_next _ _ _ _ _ _
    rw [← hrun.1, hsrc]

/-- Two regions of `n` bytes that do not overlap have no byte in common. -/
theorem not_overlaps_apart (a b : BytePtr) (n : Nat) (hno : overlaps a b n = false)
    (i j : Nat) (hi : i < n) (hj : j < n) :
    ¬ (b.mem = a.mem ∧ b.tid = a.tid ∧ b.pos + j = a.pos + i) := by
  rintro ⟨h1, h2, h3⟩
  have : overlaps a b n = true := by
    simp only [overlaps, Bool.and_eq_true, beq_iff_eq, decide_eq_true_eq]
    exact ⟨⟨⟨h1.symm, h2.symm⟩, by omega⟩, by omega⟩
  rw [hno] at this
  exact Bool.false_ne_true this

/-- A source that lies below the write cursor does not overlap a region that
starts at the cursor. -/
theorem below_cursor_not_overlaps (h : Heap) (mb tid n : Nat) (b : BufferIndex) (mem : Nat)
    (hbelow : b.index + n ≤ get_offset h mem b.tid) :
    overlaps ⟨mb, tid, (h mb).cur tid⟩ (get_address mem b) n = false := by
  rw [Bool.eq_false_iff]
  intro hyes
  simp only [overlaps, get_address, Bool.and_eq_true, beq_iff_eq, decide_eq_true_eq] at hyes
  obtain ⟨⟨⟨h1, h2⟩, h3⟩, h4⟩ := hyes
  unfold get_offset at hbelow
  subst h1
  subst h2
  omega

/-- No byte of a region lies inside a region it does not overlap. -/
theorem not_overlaps_outside (a b : BytePtr) (n : Nat) (hno : overlaps a b n = false)
    (i : Nat) (hi : i < n) :
    ¬ (b.mem = a.mem ∧ b.tid = a.tid ∧ a.pos ≤ b.pos + i ∧ b.pos + i < a.pos + n) := by
  rintro ⟨h1, h2, h3, h4⟩
  have : overlaps a b n = true := by
    simp only [overlaps, Bool.and_eq_true, beq_iff_eq, decide_eq_true_eq]
    exact ⟨⟨⟨h1.symm, h2.symm⟩, by omega⟩, by omega⟩
  rw [hno] at this
  exact Bool.false_ne_true this

/-! ## The copy constructor -/

/-- C1: copy construction is a verbatim byte copy.  `Vector(tid, arena, v_in)`
is defined exactly when the source does not overlap the reserved region (the
precondition of `memcpy`), and after it the `n` bytes at the address of the new
vector equal the `n` bytes at the address of `v_in`, read after the call as
well as before it, where `n = T::get_num_bytes(v_in.get_meta())`. -/
theorem copy_is_verbatim {Meta : Type} (L : Layout Meta) (h : Heap) (tid mb : Nat)
    (v_in : Vector) :
    ((Vector.copy L h tid mb v_in).isSome
      = !overlaps (get_next h mb tid (L.get_num_bytes (v_in.get_meta L h))).2
          (get_address v_in.memoryBuffer v_in.bufferIndex)
          (L.get_num_bytes (v_in.get_meta L h))) ∧
    ∀ h' v, Vector.copy L h tid mb v_in = some (h', v) →
      ∀ i, i < L.get_num_bytes (v_in.get_meta L h) →
        load h' (get_address v.memoryBuffer v.bufferIndex) i
          = load h' (get_address v_in.memoryBuffer v_in.bufferIndex) i ∧
        load h' (get_address v.memoryBuffer v.bufferIndex) i
          = load h (get_address v_in.memoryBuffer v_in.bufferIndex) i := by
  constructor
  · rw [copy_unfold, get_next_ptr]
    split_ifs with ho
    · simp [ho]
    · simp [ho]
  · intro h' v hrun i hi
    obtain ⟨hno, hh, hv⟩ := copy_inv L h tid mb v_in h' v hrun
    subst hv
    subst hh
    have hnew : load (writeRange (get_next h mb tid (L.get_num_bytes (v_in.get_meta L h))).1
        ⟨mb, tid, (h mb).cur tid⟩ (L.get_num_bytes (v_in.get_meta L h))
        (load h (get_address v_in.memoryBuffer v_in.bufferIndex)))
        (get_address mb ⟨tid, (h mb).cur tid⟩) i
          = load h (get_address v_in.memoryBuffer v_in.bufferIndex) i :=
      load_writeRange_inside _ ⟨mb, tid, (h mb).cur tid⟩ _ _ i hi
    refine ⟨?_, hnew⟩
    rw [hnew, load_writeRange_outside _ _ _ _ _ _ (not_overlaps_outside _ _ _ hno i hi),
      load_get_next]

/-- At the sample heap the vector at position 1 of thread 0 has the header
byte 4, so 4 bytes are copied; the copy onto the same thread is defined and
byte 3 of the copy equals byte 3 of the source. -/
theorem copy_is_verbatim_witness :
    (Vector.copy sampleLayout sampleHeap 0 0 ⟨⟨0, 1⟩, 0⟩).isSome = true ∧
    ∀ h' v, Vector.copy sampleLayout sampleHeap 0 0 ⟨⟨0, 1⟩, 0⟩ = some (h', v) →
      load h' (get_address v.memoryBuffer v.bufferIndex) 3 = load h' ⟨0, 0, 1⟩ 3 ∧
      load h' (get_address v.memoryBuffer v.bufferIndex) 3 = 7 :=
  ⟨by decide, fun h' v hrun =>
    (copy_is_verbatim sampleLayout sampleHeap 0 0 ⟨⟨0, 1⟩, 0⟩).2 h' v hrun 3 (by decide)⟩

/-- C7: copy construction never aliases or alters its source.  When the `n`
encoded bytes of `v_in` lie below the write cursor of its thread in its arena,
`Vector(tid, arena, v_in)` is defined, no byte of the reserved region is a byte
of the source region (also for the same thread of the same arena), and the
source bytes are the same after the copy as before. -/
theorem copy_leaves_source {Meta : Type} (L : Layout Meta) (h : Heap) (tid mb : Nat)
    (v_in : Vector)
    (hbelow : v_in.bufferIndex.index + L.get_num_bytes (v_in.get_meta L h)
      ≤ get_offset h v_in.memoryBuffer v_in.bufferIndex.tid) :
    ∃ h' v, Vector.copy L h tid mb v_in = some (h', v) ∧
      (∀ i j, i < L.get_num_bytes (v_in.get_meta L h) → j < L.get_num_bytes (v_in.get_meta L h) →
        (get_address v.memoryBuffer v.bufferIndex).add i
          ≠ (get_address v_in.memoryBuffer v_in.bufferIndex).add j) ∧
      (∀ j, j < L.get_num_bytes (v_in.get_meta L h) →
        load h' (get_address v_in.memoryBuffer v_in.bufferIndex) j
          = load h (get_address v_in.memoryBuffer v_in.bufferIndex) j) := by
  have hno := below_cursor_not_overlaps h mb tid (L.get_num_bytes (v_in.get_meta L h))
    v_in.bufferIndex v_in.memoryBuffer hbelow
  have hrun := copy_unfold L h tid mb v_in
  rw [hno] at hrun
  simp only [Bool.false_eq_true, if_false] at hrun
  refine ⟨_, _, hrun, ?_, ?_⟩
  · intro i j hi hj heq
    apply not_overlaps_apart _ _ _ hno i j hi hj
    simp only [BytePtr.add, get_address, BytePtr.mk.injEq] at heq
    exact ⟨heq.1.symm, heq.2.1.symm, heq.2.2.symm⟩
  · intro j hj
    rw [load_writeRange_outside _ _ _ _ _ _ (not_overlaps_outside _ _ _ hno j hj),
      load_get_next]

/-- At the sample heap the 4 bytes of the vector at position 1 of thread 0 lie
below the cursor 8, and the copy onto the same thread is defined. -/
theorem copy_leaves_source_witness :
    ∃ h' v, Vector.copy sampleLayout sampleHeap 0 0 ⟨⟨0, 1⟩, 0⟩ = some (h', v) ∧
      (∀ i j, i < 4 → j < 4 →
        (get_address v.memoryBuffer v.bufferIndex).add i ≠ (⟨0, 0, 1⟩ : BytePtr).add j) ∧
      (∀ j, j < 4 → load h' ⟨0, 0, 1⟩ j = load sampleHeap ⟨0, 0, 1⟩ j) :=
  copy_leaves_source sampleLayout sampleHeap 0 0 ⟨⟨0, 1⟩, 0⟩ (by decide)

/-! ## What every arena-writing constructor does to the cursors -/

/-- A constructor call that returns yields the vector `(tid, old cursor)` of the
arena, and moves only the cursor of its thread, by the size it reserves. -/
theorem run_inv {Meta : Type} (L : Layout Meta) (h : Heap) (mb : Nat) (c : Call)
    (h' : Heap) (v : Vector) (hrun : c.run L h mb = some (h', v)) :
    v = ⟨⟨c.tid, (h mb).cur c.tid⟩, mb⟩ ∧
    ∀ m t, (h' m).cur t
      = if m = mb ∧ t = c.tid then (h m).cur t + c.size L h else (h m).cur t := by
  cases c with
  | copy tid v_in =>
    obtain ⟨_, hh, hv⟩ := copy_inv L h tid mb v_in h' v hrun
    refine ⟨hv, ?_⟩
    intro m t
    rw [hh, writeRange_cur, get_next_cur]
    rfl
  | zeroed tid num_bytes =>
    simp only [Call.run, Option.some.injEq] at hrun
    have hh : h' = (Vector.zeroed h tid mb num_bytes).1 := by rw [hrun]
    have hv : v = (Vector.zeroed h tid mb num_bytes).2 := by rw [hrun]
    rw [hh, hv]
    refine ⟨rfl, ?_⟩
    intro m t
    simp only [Vector.zeroed, memset, writeRange_cur, get_next_cur]
    rfl
  | ofBytes tid data index_len anno_len =>
    simp only [Call.run, Option.some.injEq] at hrun
    have hh : h' = (Vector.ofBytes h tid mb data index_len anno_len).1 := by rw [hrun]
    have hv : v = (Vector.ofBytes h tid mb data index_len anno_len).2 := by rw [hrun]
    rw [hh, hv]
    refine ⟨rfl, ?_⟩
    intro m t
    simp only [Vector.ofBytes, memset, memcpy_from, writeRange_cur, get_next_cur]
    rfl
  | ofBytesAnno b0 tid data index_len anno anno_len anno_offset =>
    simp only [Call.run, Option.some.injEq] at hrun
    have hh : h' = (Vector.ofBytesAnno L h b0 tid mb data index_len anno anno_len
        anno_offset).1 := by rw [hrun]
    have hv : v = (Vector.ofBytesAnno L h b0 tid mb data index_len anno anno_len
        anno_offset).2 := by rw [hrun]
    rw [hh, hv]
    refine ⟨rfl, ?_⟩
    intro m t
    simp only [Vector.ofBytesAnno, memcpy_from, writeRange_cur, get_next_cur]
    rfl

/-- Reserving at the cursor and writing the reserved region changes nothing
else. -/
theorem unchangedOutside_reserve_write (h : Heap) (mb tid n k off : Nat) (f : Nat → Byte)
    (hk : off + k ≤ n) :
    unchangedOutside h
      (writeRange (get_next h mb tid n).1 ⟨mb, tid, (h mb).cur tid + off⟩ k f)
      mb tid ((h mb).cur tid) n := by
  constructor
  · intro m t hmt
    rw [writeRange_cur, get_next_cur, if_neg hmt]
  · intro m t q hq
    rw [writeRange_buffer, get_next_buffer, if_neg]
    rintro ⟨h1, h2, h3, h4⟩
    apply hq
    simp only at h1 h2 h3 h4
    exact ⟨h1, h2, by omega, by omega⟩

/-- Two changes confined to the same region, one after the other. -/
theorem unchangedOutside_trans (h h1 h2 : Heap) (mb tid lo n : Nat)
    (h01 : unchangedOutside h h1 mb tid lo n)
    (h12 : (∀ m t, (h2 m).cur t = (h1 m).cur t) ∧
      (∀ m t q, ¬ (m = mb ∧ t = tid ∧ lo ≤ q ∧ q < lo + n) →
        (h2 m).buffer t q = (h1 m).buffer t q)) :
    unchangedOutside h h2 mb tid lo n := by
  constructor
  · intro m t hmt
    rw [h12.1, h01.1 m t hmt]
  · intro m t q hq
    rw [h12.2 m t q hq, h01.2 m t q hq]

/-! ## The zero-filled and the raw-bytes constructors -/

/-- C5: `Vector(tid, arena, num_bytes)` advances the write cursor of thread
`tid` by `num_bytes`, and every byte at positions `0 .. num_bytes-1` from the
address of the new vector is 0, whatever the arena held before. -/
theorem zeroed_reserves_and_zero_fills (h : Heap) (tid mb num_bytes : Nat) :
    get_offset (Vector.zeroed h tid mb num_bytes).1 mb tid = get_offset h mb tid + num_bytes ∧
    ∀ i, i < num_bytes →
      load (Vector.zeroed h tid mb num_bytes).1
        (get_address (Vector.zeroed h tid mb num_bytes).2.memoryBuffer
          (Vector.zeroed h tid mb num_bytes).2.bufferIndex) i = 0 := by
  constructor
  · simp [Vector.zeroed, memset, get_offset, writeRange_cur, get_next_cur]
  · intro i hi
    simp only [Vector.zeroed, memset, get_address, get_offset, get_next_ptr]
    rw [load_writeRange_inside _ _ _ _ _ hi]

/-- At the sample heap, whose bytes are all nonzero from position 8 on, the
zero-filled constructor with 3 bytes on thread 1 moves the cursor from 8 to 11
and leaves zeros at positions 0, 1 and 2 of the new vector. -/
theorem zeroed_reserves_and_zero_fills_witness :
    load sampleHeap ⟨0, 1, 8⟩ 2 = 13 ∧
    get_offset (Vector.zeroed sampleHeap 1 0 3).1 0 1 = 11 ∧
    load (Vector.zeroed sampleHeap 1 0 3).1
      (get_address (Vector.zeroed sampleHeap 1 0 3).2.memoryBuffer
        (Vector.zeroed sampleHeap 1 0 3).2.bufferIndex) 2 = 0 :=
  ⟨by decide, (zeroed_reserves_and_zero_fills sampleHeap 1 0 3).1,
    (zeroed_reserves_and_zero_fills sampleHeap 1 0 3).2 2 (by decide)⟩

/-- C4: `Vector(tid, arena, data, index_len, anno_len)` reserves exactly
`index_len + anno_len` bytes on thread `tid`; the first `index_len` bytes at
the new address are `data[0..index_len)` and each of the following `anno_len`
bytes is 0. -/
theorem ofBytes_copies_keys_and_zero_fills (h : Heap) (tid mb : Nat) (data : Nat → Byte)
    (index_len anno_len : Nat) :
    get_offset (Vector.ofBytes h tid mb data index_len anno_len).1 mb tid
      = get_offset h mb tid + (index_len + anno_len) ∧
    (∀ i, i < index_len →
      load (Vector.ofBytes h tid mb data index_len anno_len).1
        (get_address (Vector.ofBytes h tid mb data index_len anno_len).2.memoryBuffer
          (Vector.ofBytes h tid mb data index_len anno_len).2.bufferIndex) i = data i) ∧
    (∀ j, j < anno_len →
      load (Vector.ofBytes h tid mb data index_len anno_len).1
        (get_address (Vector.ofBytes h tid mb data index_len anno_len).2.memoryBuffer
          (Vector.ofBytes h tid mb data index_len anno_len).2.bufferIndex) (index_len + j) = 0) := by
  refine ⟨?_, ?_, ?_⟩
  · simp [Vector.ofBytes, memset, memcpy_from, get_offset, writeRange_cur, get_next_cur]
  · intro i hi
    simp only [Vector.ofBytes, memset, memcpy_from, get_address, get_offset, get_next_ptr,
      BytePtr.add]
    rw [load_writeRange_outside, load_writeRange_inside _ _ _ _ _ hi]
    simp only [not_and, not_lt]
    intro _ _ h3
    omega
  · intro j hj
    simp only [Vector.ofBytes, memset, memcpy_from, get_address, get_offset, get_next_ptr,
      BytePtr.add]
    unfold load
    rw [writeRange_buffer, if_pos]
    refine ⟨rfl, rfl, ?_, ?_⟩
    · show (h mb).cur tid + index_len ≤ (h mb).cur tid + (index_len + j)
      omega
    · show (h mb).cur tid + (index_len + j) < (h mb).cur tid + index_len + anno_len
      omega

/-- At the sample heap, the raw-bytes constructor with the two key bytes 2, 5
and two annotation bytes on thread 1 moves the cursor from 8 to 12 and leaves
the bytes 2, 5, 0, 0 at the new address. -/
theorem ofBytes_copies_keys_and_zero_fills_witness :
    get_offset (Vector.ofBytes sampleHeap 1 0 (bytesOf [2, 5]) 2 2).1 0 1 = 8 + (2 + 2) ∧
    load (Vector.ofBytes sampleHeap 1 0 (bytesOf [2, 5]) 2 2).1
      (get_address (Vector.ofBytes sampleHeap 1 0 (bytesOf [2, 5]) 2 2).2.memoryBuffer
        (Vector.ofBytes sampleHeap 1 0 (bytesOf [2, 5]) 2 2).2.bufferIndex) 1 = 5 ∧
    load (Vector.ofBytes sampleHeap 1 0 (bytesOf [2, 5]) 2 2).1
      (get_address (Vector.ofBytes sampleHeap 1 0 (bytesOf [2, 5]) 2 2).2.memoryBuffer
        (Vector.ofBytes sampleHeap 1 0 (bytesOf [2, 5]) 2 2).2.bufferIndex) (2 + 1) = 0 :=
  ⟨(ofBytes_copies_keys_and_zero_fills sampleHeap 1 0 (bytesOf [2, 5]) 2 2).1,
    (ofBytes_copies_keys_and_zero_fills sampleHeap 1 0 (bytesOf [2, 5]) 2 2).2.1 1 (by decide),
    (ofBytes_copies_keys_and_zero_fills sampleHeap 1 0 (bytesOf [2, 5]) 2 2).2.2 1 (by decide)⟩

/-! ## Addresses -/

/-- C3: every arena-writing constructor (copy, zero-filled, raw bytes, raw
bytes with values) records as the address of the vector the pair
`(tid, get_offset(tid))` read before the reservation; on the bump arena that
address resolves to the pointer `get_next` returned, the first byte of the
reserved region, and the cursor ends at the end of that region. -/
theorem constructors_record_reserved_address {Meta : Type} (L : Layout Meta) (h : Heap)
    (mb : Nat) (c : Call) (h' : Heap) (v : Vector) (hrun : c.run L h mb = some (h', v)) :
    v.bufferIndex = ⟨c.tid, get_offset h mb c.tid⟩ ∧
    get_address v.memoryBuffer v.bufferIndex = (get_next h mb c.tid (c.size L h)).2 ∧
    get_offset h' mb c.tid = v.bufferIndex.index + c.size L h := by
  obtain ⟨hv, hcur⟩ := run_inv L h mb c h' v hrun
  subst hv
  refine ⟨rfl, rfl, ?_⟩
  unfold get_offset
  rw [hcur, if_pos ⟨rfl, rfl⟩]

/-- At the sample heap the raw-bytes-with-values constructor on thread 1
records the address `(1, 8)`, which resolves to the reserved region. -/
theorem constructors_record_reserved_address_witness :
    (Vector.ofBytesAnno sampleLayout sampleHeap ⟨0, 0⟩ 1 0 (bytesOf [2, 5]) 2
      (bytesOf [10, 20]) 2 2).2.bufferIndex = ⟨1, 8⟩ ∧
    get_address 0 ⟨1, 8⟩ = (get_next sampleHeap 0 1 4).2 :=
  ⟨(constructors_record_reserved_address sampleLayout sampleHeap 0
      (Call.ofBytesAnno ⟨0, 0⟩ 1 (bytesOf [2, 5]) 2 (bytesOf [10, 20]) 2 2) _ _ rfl).1,
   (constructors_record_reserved_address sampleLayout sampleHeap 0
      (Call.ofBytesAnno ⟨0, 0⟩ 1 (bytesOf [2, 5]) 2 (bytesOf [10, 20]) 2 2) _ _ rfl).2.1⟩

/-- C8, as stated, fails: two zero-filled constructions of 0 bytes on the same
thread, one after the other, get the same address. -/
theorem fresh_address_counterexample :
    ¬ ((Vector.zeroed (Vector.zeroed sampleHeap 0 0 0).1 0 0 0).2.bufferIndex
        ≠ (Vector.zeroed sampleHeap 0 0 0).2.bufferIndex) := by
  decide

/-- C8, amended: of two arena-writing constructions performed one after the
other on the same arena, the second vector has an address different from the
first exactly when the thread ids differ or the first construction reserved at
least one byte. -/
theorem fresh_address_iff {Meta : Type} (L : Layout Meta) (h : Heap) (mb : Nat)
    (c1 c2 : Call) (h1 h2 : Heap) (v1 v2 : Vector)
    (hrun1 : c1.run L h mb = some (h1, v1)) (hrun2 : c2.run L h1 mb = some (h2, v2)) :
    v2.bufferIndex ≠ v1.bufferIndex ↔ (c2.tid ≠ c1.tid ∨ 0 < c1.size L h) := by
  obtain ⟨hv1, hcur1⟩ := run_inv L h mb c1 h1 v1 hrun1
  obtain ⟨hv2, _⟩ := run_inv L h1 mb c2 h2 v2 hrun2
  subst hv1
  subst hv2
  simp only [ne_eq, BufferIndex.mk.injEq, hcur1, true_and]
  by_cases ht : c2.tid = c1.tid
  · simp only [ht, if_true, not_true_eq_false, false_or, true_and]
    omega
  · simp [ht]

/-- At the sample heap, a zero-filled construction of 3 bytes on thread 1
followed by one of 0 bytes on the same thread gives two different addresses. -/
theorem fresh_address_iff_witness :
    (Vector.zeroed (Vector.zeroed sampleHeap 1 0 3).1 1 0 0).2.bufferIndex
      ≠ (Vector.zeroed sampleHeap 1 0 3).2.bufferIndex :=
  (fresh_address_iff sampleLayout sampleHeap 0 (Call.zeroed 1 3) (Call.zeroed 1 0)
    _ _ _ _ rfl rfl).2 (Or.inr (by decide))

/-- C10: the constructor `Vector(arena)` yields the address
`(NUM_THREADS, 0)`, leaves the heap as it is and does not depend on it; every
vector an arena-writing constructor returns for a thread id below
`NUM_THREADS` has a different address. -/
theorem unbound_address (NUM_THREADS : Nat) (h : Heap) (mb : Nat) :
    (Vector.unbound NUM_THREADS h mb).2.bufferIndex = ⟨NUM_THREADS, 0⟩ ∧
    (Vector.unbound NUM_THREADS h mb).1 = h ∧
    (∀ g : Heap, (Vector.unbound NUM_THREADS g mb).2 = (Vector.unbound NUM_THREADS h mb).2) ∧
    ∀ (Meta : Type) (L : Layout Meta) (g : Heap) (mb2 : Nat) (c : Call) (g' : Heap) (v : Vector),
      c.tid < NUM_THREADS → c.run L g mb2 = some (g', v) →
        v.bufferIndex ≠ (Vector.unbound NUM_THREADS h mb).2.bufferIndex := by
  refine ⟨rfl, rfl, fun _ => rfl, ?_⟩
  intro Meta L g mb2 c g' v hlt hrun
  obtain ⟨hv, _⟩ := run_inv L g mb2 c g' v hrun
  subst hv
  simp only [Vector.unbound, ne_eq, BufferIndex.mk.injEq, not_and]
  intro heq
  omega

/-- With 4 threads, the unbound vector has the address `(4, 0)`, and the
zero-filled construction on thread 1 of the sample heap has another one. -/
theorem unbound_address_witness :
    (Vector.unbound 4 sampleHeap 0).2.bufferIndex = ⟨4, 0⟩ ∧
    (Vector.zeroed sampleHeap 1 0 3).2.bufferIndex
      ≠ (Vector.unbound 4 sampleHeap 0).2.bufferIndex :=
  ⟨(unbound_address 4 sampleHeap 0).1,
   (unbound_address 4 sampleHeap 0).2.2.2 Nat sampleLayout sampleHeap 0 (Call.zeroed 1 3) _ _
     (by decide) rfl⟩

/-! ## Frame -/

/-- C6: the copy, zero-filled and raw-bytes constructors called with thread id
`tid` on the bump arena change nothing but the cursor of `tid` and the bytes at
`[old cursor, old cursor + reserved size)` of the partition of `tid`: the
cursor and the bytes of every other thread, and the bytes of `tid` below the
old cursor, are unchanged. -/
theorem constructors_write_only_reserved_region {Meta : Type} (L : Layout Meta) (h : Heap)
    (tid mb : Nat) :
    (∀ v_in h' v, Vector.copy L h tid mb v_in = some (h', v) →
      unchangedOutside h h' mb tid (get_offset h mb tid)
        (L.get_num_bytes (v_in.get_meta L h))) ∧
    (∀ num_bytes,
      unchangedOutside h (Vector.zeroed h tid mb num_bytes).1 mb tid (get_offset h mb tid)
        num_bytes) ∧
    (∀ data index_len anno_len,
      unchangedOutside h (Vector.ofBytes h tid mb data index_len anno_len).1 mb tid
        (get_offset h mb tid) (index_len + anno_len)) := by
  refine ⟨?_, ?_, ?_⟩
  · intro v_in h' v hrun
    obtain ⟨_, hh, _⟩ := copy_inv L h tid mb v_in h' v hrun
    rw [hh]
    exact unchangedOutside_reserve_write h mb tid _ _ 0 _ (by omega)
  · intro num_bytes
    exact unchangedOutside_reserve_write h mb tid _ _ 0 _ (by omega)
  · intro data index_len anno_len
    apply unchangedOutside_trans h
      (memcpy_from (get_next h mb tid (index_len + anno_len)).1
        (get_next h mb tid (index_len + anno_len)).2 data index_len)
    · exact unchangedOutside_reserve_write h mb tid _ _ 0 _ (by omega)
    · constructor
      · intro m t
        simp only [Vector.ofBytes, memset, writeRange_cur]
      · intro m t q hq
        simp only [Vector.ofBytes, memset, get_next_ptr, BytePtr.add]
        rw [writeRange_buffer, if_neg]
        rintro ⟨h1, h2, h3, h4⟩
        apply hq
        simp only [get_offset] at h1 h2 h3 h4 ⊢
        exact ⟨h1, h2, by omega, by omega⟩

/-- At the sample heap, the copy of the vector at position 1 of thread 0 onto
thread 1 is defined and leaves byte 2 of thread 0 as it was; the raw-bytes
constructor on thread 1 leaves the cursor of thread 0, byte 7 of thread 1 and
byte 12 of thread 1 as they were. -/
theorem constructors_write_only_reserved_region_witness :
    (∃ h' v, Vector.copy sampleLayout sampleHeap 1 0 ⟨⟨0, 1⟩, 0⟩ = some (h', v) ∧
      (h' 0).buffer 0 2 = (sampleHeap 0).buffer 0 2) ∧
    ((Vector.ofBytes sampleHeap 1 0 (bytesOf [2, 5]) 2 2).1 0).cur 0 = (sampleHeap 0).cur 0 ∧
    ((Vector.ofBytes sampleHeap 1 0 (bytesOf [2, 5]) 2 2).1 0).buffer 1 7
      = (sampleHeap 0).buffer 1 7 ∧
    ((Vector.ofBytes sampleHeap 1 0 (bytesOf [2, 5]) 2 2).1 0).buffer 1 12
      = (sampleHeap 0).buffer 1 12 :=
  ⟨⟨_, _, rfl,
      ((constructors_write_only_reserved_region sampleLayout sampleHeap 1 0).1
        ⟨⟨0, 1⟩, 0⟩ _ _ rfl).2 0 0 2 (by decide)⟩,
   ((constructors_write_only_reserved_region sampleLayout sampleHeap 1 0).2.2
      (bytesOf [2, 5]) 2 2).1 0 0 (by decide),
   ((constructors_write_only_reserved_region sampleLayout sampleHeap 1 0).2.2
      (bytesOf [2, 5]) 2 2).2 0 1 7 (by decide),
   ((constructors_write_only_reserved_region sampleLayout sampleHeap 1 0).2.2
      (bytesOf [2, 5]) 2 2).2 0 1 12 (by decide)⟩

/-! ## The constructor with values -/

/-- The annotation bytes land at the cell `get_annotation` computes from the
value the member `bufferIndex` held when the body started. -/
theorem ofBytesAnno_annotation_cell {Meta : Type} (L : Layout Meta) (h : Heap)
    (bufferIndex0 : BufferIndex) (tid mb : Nat) (data : Nat → Byte) (index_len : Nat)
    (anno : Nat → Byte) (anno_len anno_offset : Nat) (i : Nat) (hi : i < anno_len) :
    load (Vector.ofBytesAnno L h bufferIndex0 tid mb data index_len anno anno_len anno_offset).1
      (get_address mb (L.get_annotation anno_offset
        ((memcpy_from (get_next h mb tid (index_len + anno_len)).1
          (get_next h mb tid (index_len + anno_len)).2 data index_len) mb) bufferIndex0)) i
      = anno i := by
  simp only [Vector.ofBytesAnno, memcpy_from]
  exact load_writeRange_inside _ _ _ _ i hi

/-- C2, evaluated: the constructor with values is called on thread 1 of the
sample heap with the key bytes 2, 5, the annotation bytes 10, 20 and
`anno_offset = 2`, while the member `bufferIndex` holds `(0, 0)`.  The new
vector has the address `(1, 8)`; its own annotation cell still holds the old
byte 13, not 10, and the annotation bytes were written at position 2 of the
partition of thread 0, over the byte 5. -/
theorem ofBytesAnno_writes_outside_new_vector :
    (Vector.ofBytesAnno sampleLayout sampleHeap ⟨0, 0⟩ 1 0 (bytesOf [2, 5]) 2
      (bytesOf [10, 20]) 2 2).2.bufferIndex = ⟨1, 8⟩ ∧
    load (Vector.ofBytesAnno sampleLayout sampleHeap ⟨0, 0⟩ 1 0 (bytesOf [2, 5]) 2
        (bytesOf [10, 20]) 2 2).1
      (get_address 0 (sampleLayout.get_annotation 2
        ((Vector.ofBytesAnno sampleLayout sampleHeap ⟨0, 0⟩ 1 0 (bytesOf [2, 5]) 2
          (bytesOf [10, 20]) 2 2).1 0) ⟨1, 8⟩)) 0 = 13 ∧
    bytesOf [10, 20] 0 = 10 ∧
    load sampleHeap ⟨0, 0, 2⟩ 0 = 5 ∧
    load (Vector.ofBytesAnno sampleLayout sampleHeap ⟨0, 0⟩ 1 0 (bytesOf [2, 5]) 2
        (bytesOf [10, 20]) 2 2).1 ⟨0, 0, 2⟩ 0 = 10 := by
  decide

end EmptyHeaded
